import Mathlib

/-!
Shallow embedding of the trading-app backend (repository `trading-app-rust`),
covering the FIFO trade-settlement engine (`services/trade_service.rs`), the
wallet balance calculator (`services/wallet_service.rs`), the RSI and
stochastic indicator kernels (`services/indicators/`), the strategy-result
upsert (`services/strategy_service.rs`) and the wallet balance HTTP handler
(`routes/wallet.rs`).

Modelling conventions:
* `rust_decimal::Decimal` and `f64` money/price/indicator values are modelled
  as `ℚ` (exact arithmetic).
* dates (ISO `YYYY-MM-DD` strings, ordered lexicographically in the source,
  which coincides with chronological order) are modelled as `ℕ` day numbers;
  `strategy_result` dates stay `String` since they are only compared for
  equality.
* the database is modelled as in-memory lists in insertion order; primary
  keys are allocated from a counter; a SQL `ORDER BY date ASC` over rows is
  modelled as a stable sort by date.  SQL leaves the relative order of
  equal-date rows unspecified, so the stable choice is one admissible
  query result; statements for which the tie order matters quantify over
  arbitrary date-sorted snapshots rather than relying on it.
-/

set_option maxRecDepth 40000

namespace TradingApp

/-- Wallet ledger entry: `models/wallet.rs` (table `wallet`). -/
structure WalletTx where
  userId : Int
  date : Nat
  action : String
  symbol : Option String
  amount : ℚ
  currency : String
  deriving DecidableEq, Repr

/-- Stock row: `models/stock.rs` (table `stock`). -/
structure Stock where
  compagnyName : String
  symbolAlphavantage : Option String
  currency : Option String
  deriving DecidableEq, Repr

/-- Trade lot: `models/trade.rs` (table `trade`).  The nullable columns are
modelled as plain fields: every row reachable through
`TradeService::create_trade` populates them, and the services unwrap them. -/
structure Trade where
  id : Nat
  userId : Int
  date : Nat
  symbol : String
  tradeType : String
  quantite : ℚ
  prixUnitaire : ℚ
  prixTotal : ℚ
  quantiteRestante : ℚ
  deriving DecidableEq, Repr

/-- Closed-trade record: `models/trades_fermes.rs` (table `trades_fermes_rust`).
The `quantity` field is the fragment quantity handed to
`TradeService::create_closed_trade`; the table persists it only through
`gain_dollars = (sale_price - buy_price) * quantity`, we keep it as a ghost
field to state the conservation law. -/
structure ClosedTrade where
  userId : Int
  symbol : String
  dateAchat : Nat
  prixAchat : ℚ
  dateVente : Nat
  prixVente : ℚ
  pourcentageGain : Int
  gainDollars : ℚ
  tempsJours : Int
  tradeAchatId : Nat
  tradeVenteId : Nat
  quantity : ℚ
  deriving DecidableEq, Repr

/-- Trade request DTO: `routes/trade.rs` / `models/dto.rs` `CreateTradeRequest`. -/
structure CreateTradeRequest where
  symbol : String
  tradeType : String
  quantite : ℚ
  prixUnitaire : ℚ
  date : Nat
  deriving DecidableEq, Repr

/-- The mutable store the services read and write: `trade` rows,
`trades_fermes_rust` rows and the primary-key counter for `trade`. -/
structure DBState where
  trades : List Trade
  closedTrades : List ClosedTrade
  nextId : Nat
  deriving DecidableEq, Repr

/-- Read-only tables consulted by the services. -/
structure Env where
  stocks : List Stock
  wallet : List WalletTx
  deriving DecidableEq, Repr

/-! ### Association-list model of `std::collections::HashMap<String, Decimal>`

`entry(k).or_insert(ZERO)` followed by `+= d` (or by nothing, `d = 0`) is
`alAdd m k d`: it creates the key with value `0` if absent, then adds `d`. -/

/-- Add `d` to key `k`, inserting the key with initial value `0` if absent. -/
def alAdd (m : List (String × ℚ)) (k : String) (d : ℚ) : List (String × ℚ) :=
  match m with
  | [] => [(k, d)]
  | (k', v) :: rest => if k' = k then (k', v + d) :: rest else (k', v) :: alAdd rest k d

/-- Lookup: `m.get(&k).copied().unwrap_or(ZERO)`. -/
def alGet (m : List (String × ℚ)) (k : String) : ℚ :=
  match m with
  | [] => 0
  | (k', v) :: rest => if k' = k then v else alGet rest k

/-- Keys of the map (in first-insertion order). -/
def alKeys (m : List (String × ℚ)) : List String := m.map Prod.fst

/-! ### Sorting helpers

`Vec::sort_by(|a, b| a.currency.cmp(&b.currency))` over distinct keys, and
SeaORM `order_by_asc(Column::Date)` over rows in insertion order, are both
modelled as stable insertion sorts. -/

/-- Lexicographic comparison of character lists by Unicode scalar value:
the order `std::string::String::cmp` uses in Rust (our currency codes are
ASCII, where byte order and scalar-value order agree). -/
def charListLe : List Char → List Char → Bool
  | [], _ => true
  | _ :: _, [] => false
  | a :: as, b :: bs =>
    if a.toNat < b.toNat then true
    else if b.toNat < a.toNat then false
    else charListLe as bs

/-- String comparison by Unicode scalar values. -/
def strLe (a b : String) : Bool := charListLe a.data b.data

/-- Insert a string into a sorted list of strings. -/
def insertStr (c : String) : List String → List String
  | [] => [c]
  | x :: xs => if strLe c x then c :: x :: xs else x :: insertStr c xs

/-- Sort a list of strings ascending. -/
def sortStrings (l : List String) : List String := l.foldr insertStr []

/-- Insert a trade after all already-placed trades of date `≤ t.date`
(stable insertion). -/
def insertByDate (t : Trade) : List Trade → List Trade
  | [] => [t]
  | x :: xs => if x.date ≤ t.date then x :: insertByDate t xs else t :: x :: xs

/-- Stable sort by `date` ascending, modelling
`order_by_asc(trade::Column::Date)`.  The SQL query constrains only the
date order and leaves the relative order of equal-date rows unspecified;
this executable model fixes one admissible result (insertion order on
ties).  Statements for which the tie order matters therefore quantify over
arbitrary date-sorted snapshots instead of relying on this choice. -/
def sortByDate (l : List Trade) : List Trade :=
  l.foldl (fun acc t => insertByDate t acc) []

/-! ### WalletService (`services/wallet_service.rs`) -/

/-- One per-currency balance: `wallet_service.rs` `CurrencyBalance`. -/
structure CurrencyBalance where
  currency : String
  total : ℚ
  invested : ℚ
  treasury : ℚ
  deriving DecidableEq, Repr

/-- Signed contribution of one wallet action (`calculate_wallet_totals`):
`gain`/`ajout` add, `perte`/`retrait` subtract, anything else contributes 0
(but still creates the map entry, hence `alAdd _ _ 0`). -/
def walletDelta (action : String) (amount : ℚ) : ℚ :=
  if action = "gain" ∨ action = "ajout" then amount
  else if action = "perte" ∨ action = "retrait" then -amount
  else 0

/-- Source `WalletService::calculate_wallet_totals`. -/
def calculateWalletTotals (txs : List WalletTx) (userId : Int) : List (String × ℚ) :=
  (txs.filter (fun tx => tx.userId = userId)).foldl
    (fun m tx => alAdd m tx.currency (walletDelta tx.action tx.amount)) []

/-- Query `stock::Entity::find().filter(SymbolAlphavantage.eq(symbol)).one(db)`. -/
def findStock (stocks : List Stock) (symbol : String) : Option Stock :=
  stocks.find? (fun s => s.symbolAlphavantage = some symbol)

/-- Currency resolution in `calculate_invested_amounts`: the found stock's
currency, defaulting to `"CAD"` both when the stock row has no currency and
when no stock row matches the symbol. -/
def stockCurrencyOrCad (stocks : List Stock) (symbol : String) : String :=
  match findStock stocks symbol with
  | some s => s.currency.getD "CAD"
  | none => "CAD"

/-- Source `WalletService::calculate_invested_amounts`: fold over all the user's
trades; `achat` rows add `quantite_restante * prix_unitaire` under the
stock's currency, `vente` (and unknown) rows add nothing but still create
the entry. -/
def calculateInvestedAmounts (stocks : List Stock) (trades : List Trade)
    (userId : Int) : List (String × ℚ) :=
  (trades.filter (fun t => t.userId = userId)).foldl
    (fun m t =>
      let currency := stockCurrencyOrCad stocks t.symbol
      let delta := if t.tradeType = "achat" then t.quantiteRestante * t.prixUnitaire else 0
      alAdd m currency delta) []

/-- Source `WalletService::calculate_balances`: union of the currencies of both
maps (the source collects them in a `HashSet` and sorts the final vector by
currency; we map over the sorted de-duplicated key list, which produces the
same sorted rows), each row carrying `total`, `invested` and
`treasury = total - invested`, absent sides defaulting to `0`. -/
def calculateBalances (stocks : List Stock) (txs : List WalletTx)
    (trades : List Trade) (userId : Int) : List CurrencyBalance :=
  let totals := calculateWalletTotals txs userId
  let invested := calculateInvestedAmounts stocks trades userId
  let currencies := sortStrings (alKeys totals ++ alKeys invested).dedup
  currencies.map (fun c =>
    { currency := c
      total := alGet totals c
      invested := alGet invested c
      treasury := alGet totals c - alGet invested c })

/-- Source `WalletService::get_treasury_for_currency`. -/
def getTreasuryForCurrency (stocks : List Stock) (txs : List WalletTx)
    (trades : List Trade) (userId : Int) (currency : String) : ℚ :=
  match (calculateBalances stocks txs trades userId).find? (fun b => b.currency = currency) with
  | some b => b.treasury
  | none => 0

/-- Source `WalletService::has_sufficient_funds`. -/
def hasSufficientFunds (stocks : List Stock) (txs : List WalletTx)
    (trades : List Trade) (userId : Int) (currency : String) (requiredAmount : ℚ) : Bool :=
  requiredAmount ≤ getTreasuryForCurrency stocks txs trades userId currency

/-- Structured content of the `get_insufficient_funds_message` string
`"Insufficient funds: {treasury} {c} available, {required} {c} required
(shortage: {required - treasury} {c})"`. -/
structure InsufficientFundsMsg where
  available : ℚ
  requiredAmount : ℚ
  shortage : ℚ
  currency : String
  deriving DecidableEq, Repr

/-- Source `WalletService::get_insufficient_funds_message`. -/
def getInsufficientFundsMessage (stocks : List Stock) (txs : List WalletTx)
    (trades : List Trade) (userId : Int) (currency : String)
    (requiredAmount : ℚ) : InsufficientFundsMsg :=
  let treasury := getTreasuryForCurrency stocks txs trades userId currency
  { available := treasury
    requiredAmount := requiredAmount
    shortage := requiredAmount - treasury
    currency := currency }

/-! ### TradeService (`services/trade_service.rs`) -/

/-- Banker's rounding, `rust_decimal`'s default `Decimal::round`: round to the nearest integer,
ties to the nearest even integer (banker's rounding). -/
def roundBankers (q : ℚ) : Int :=
  if q - ⌊q⌋ < 1 / 2 then ⌊q⌋
  else if 1 / 2 < q - ⌊q⌋ then ⌊q⌋ + 1
  else if ⌊q⌋ % 2 = 0 then ⌊q⌋ else ⌊q⌋ + 1

/-- Parse step `pourcentage.to_string().parse::<i32>().unwrap_or(0)`: the rounded
percentage is an integer; parsing fails (yielding 0) exactly when it does
not fit in an `i32`. -/
def parseI32 (n : Int) : Int :=
  if -2147483648 ≤ n ∧ n ≤ 2147483647 then n else 0

/-- Errors surfaced by `create_trade` / `process_sale_fifo` as
`DbErr::Custom` strings, modelled structurally. -/
inductive TradeError where
  | stockNotFound (symbol : String)
  | insufficientFunds (msg : InsufficientFundsMsg)
  | shortSell (attempted : ℚ) (symbol : String) (covered : ℚ)
  deriving DecidableEq, Repr

/-- Source `TradeService::create_closed_trade`: the record built for one matched
(buy-lot, sell) fragment of size `quantity`. -/
def mkClosedTrade (userId : Int) (buyTrade saleTrade : Trade) (quantity : ℚ) :
    ClosedTrade :=
  let buyPrice := buyTrade.prixUnitaire
  let salePrice := saleTrade.prixUnitaire
  let gain := (salePrice - buyPrice) * quantity
  let pourcentage := roundBankers ((salePrice - buyPrice) / buyPrice * 100)
  { userId := userId
    symbol := buyTrade.symbol
    dateAchat := buyTrade.date
    prixAchat := buyPrice
    dateVente := saleTrade.date
    prixVente := salePrice
    pourcentageGain := parseI32 pourcentage
    gainDollars := gain
    tempsJours := (saleTrade.date : Int) - (buyTrade.date : Int)
    tradeAchatId := buyTrade.id
    tradeVenteId := saleTrade.id
    quantity := quantity }

/-- The SQL `UPDATE trade SET quantite_restante = newRem WHERE id = tid`
issued from `process_sale_fifo`. -/
def updateLot (trades : List Trade) (tid : Nat) (newRem : ℚ) : List Trade :=
  trades.map (fun t => if t.id = tid then { t with quantiteRestante := newRem } else t)

/-- The snapshot query of `process_sale_fifo`: the user's `achat` lots on
the symbol with `quantite_restante > 0`, ordered by date ascending. -/
def eligibleBuys (trades : List Trade) (userId : Int) (symbol : String) : List Trade :=
  sortByDate (trades.filter (fun t =>
    t.userId = userId ∧ t.symbol = symbol ∧ t.tradeType = "achat" ∧ 0 < t.quantiteRestante))

/-- The `for buy_trade in buy_trades` loop of `process_sale_fifo`: walk the
snapshot, closing `min remaining available` from each lot — inserting a
closed-trade record and decrementing the stored lot as it goes — until the
sell is covered or the lots run out.  Returns the mutated store and the
uncovered remainder. -/
def fifoLoop (userId : Int) (saleTrade : Trade) :
    List Trade → DBState → ℚ → DBState × ℚ
  | [], st, remaining => (st, remaining)
  | buyTrade :: rest, st, remaining =>
    if remaining ≤ 0 then (st, remaining)
    else
      let available := buyTrade.quantiteRestante
      let toClose := min remaining available
      let st1 : DBState :=
        { st with closedTrades := st.closedTrades ++ [mkClosedTrade userId buyTrade saleTrade toClose] }
      let st2 : DBState := { st1 with trades := updateLot st1.trades buyTrade.id (available - toClose) }
      fifoLoop userId saleTrade rest st2 (remaining - toClose)

/-- Source `TradeService::process_sale_fifo`.  Note that the short-sell check only
runs after the loop: on a shortfall the error is returned but every
mutation made by the loop (closed-trade inserts, lot decrements) has
already been committed to the store. -/
def processSaleFifo (st : DBState) (userId : Int) (saleTrade : Trade) :
    DBState × Option TradeError :=
  let buys := eligibleBuys st.trades userId saleTrade.symbol
  let out := fifoLoop userId saleTrade buys st saleTrade.quantite
  if 0 < out.2 then
    (out.1, some (.shortSell saleTrade.quantite saleTrade.symbol (saleTrade.quantite - out.2)))
  else (out.1, none)

/-- The `if request.trade_type == "achat" { ... }` block of `create_trade`:
resolve the stock (error if unknown), take its currency (default `"CAD"`),
and check the treasury; `none` means the gate passed. -/
def buyGate (env : Env) (st : DBState) (userId : Int)
    (req : CreateTradeRequest) (prixTotal : ℚ) : Option TradeError :=
  if req.tradeType = "achat" then
    match findStock env.stocks req.symbol with
    | none => some (.stockNotFound req.symbol)
    | some s =>
      let currency := s.currency.getD "CAD"
      if hasSufficientFunds env.stocks env.wallet st.trades userId currency prixTotal then
        none
      else
        some (.insufficientFunds
          (getInsufficientFundsMessage env.stocks env.wallet st.trades userId currency prixTotal))
  else none

/-- Source `TradeService::create_trade`: funds gate for `achat`, row insertion
(`quantite_restante` is `quantite` for `achat` and `0` otherwise), then
FIFO settlement for `vente`.  Returns the store as left by the call — on an
`achat` rejection nothing was written, on a `vente` shortfall the partial
settlement persists alongside the error. -/
def createTrade (env : Env) (st : DBState) (userId : Int)
    (req : CreateTradeRequest) : DBState × Option TradeError :=
  let prixTotal := req.quantite * req.prixUnitaire
  match buyGate env st userId req prixTotal with
  | some e => (st, some e)
  | none =>
    let newTrade : Trade :=
      { id := st.nextId
        userId := userId
        date := req.date
        symbol := req.symbol
        tradeType := req.tradeType
        quantite := req.quantite
        prixUnitaire := req.prixUnitaire
        prixTotal := prixTotal
        quantiteRestante := if req.tradeType = "achat" then req.quantite else 0 }
    let stIns : DBState :=
      { st with trades := st.trades ++ [newTrade], nextId := st.nextId + 1 }
    if req.tradeType = "vente" then processSaleFifo stIns userId newTrade
    else (stIns, none)

/-- Total quantity of the closed-trade fragments matched against the buy
lot with id `tid`. -/
def closedQtySum (cs : List ClosedTrade) (tid : Nat) : ℚ :=
  ((cs.filter (fun c => c.tradeAchatId = tid)).map (fun c => c.quantity)).sum

/-- The decidable store invariant maintained by `create_trade`: ids strictly
increase along the `trade` table and stay below the counter, closed-trade
fragments point at allocated buy ids, `0 ≤ quantite_restante ≤ quantite`
everywhere, `vente` rows keep `quantite_restante = 0`, and every `achat`
row satisfies the conservation law
`matched fragments + quantite_restante = quantite`. -/
def Inv (st : DBState) : Prop :=
  st.trades.Pairwise (fun a b => a.id < b.id) ∧
  (∀ t ∈ st.trades, t.id < st.nextId) ∧
  (∀ c ∈ st.closedTrades, c.tradeAchatId < st.nextId) ∧
  (∀ t ∈ st.trades, 0 ≤ t.quantiteRestante ∧ t.quantiteRestante ≤ t.quantite) ∧
  (∀ t ∈ st.trades, t.tradeType = "vente" → t.quantiteRestante = 0) ∧
  (∀ t ∈ st.trades, t.tradeType = "achat" →
    closedQtySum st.closedTrades t.id + t.quantiteRestante = t.quantite)

/-- The empty store. -/
def initState : DBState := { trades := [], closedTrades := [], nextId := 0 }

/-- A sequence of `create_trade` calls (each tagged with its caller's user
id), errors reported to the callers but the store kept as each call left
it. -/
def runTrades (env : Env) (st : DBState) (reqs : List (Int × CreateTradeRequest)) : DBState :=
  reqs.foldl (fun s p => (createTrade env s p.1 p.2).1) st

/-- Source `TradeService::get_available_quantity`. -/
def getAvailableQuantity (trades : List Trade) (userId : Int) (symbol : String) : ℚ :=
  ((trades.filter (fun t =>
    t.userId = userId ∧ t.symbol = symbol ∧ t.tradeType = "achat" ∧ 0 < t.quantiteRestante)).map
      (fun t => t.quantiteRestante)).sum

/-! ### RSI (`services/indicators/rsi.rs`)

`f64` closes are modelled as `ℚ`. -/

/-- Source `RSICalculator::compute_rsi` on a window of closes (the `period` field
of the calculator is passed explicitly). -/
def computeRsi (period : Nat) (closes : List ℚ) : Option ℚ :=
  if closes.length ≤ period then none
  else
    let changes := List.zipWith (fun prev cur => cur - prev) closes closes.tail
    let gains := changes.map (fun c => if 0 < c then c else 0)
    let losses := changes.map (fun c => if 0 < c then 0 else -c)
    let recentGains := gains.drop (gains.length - period)
    let recentLosses := losses.drop (losses.length - period)
    let avgGain : ℚ := recentGains.sum / period
    let avgLoss : ℚ := recentLosses.sum / period
    if avgLoss = 0 then some 100
    else
      let rs := avgGain / avgLoss
      some (100 - 100 / (1 + rs))

/-- The per-symbol loop of `RSICalculator::calculate`: index `i` of the
symbol's close series gets a value only when `i > period`, computed over
the window `closes[i - period ..= i]`; every other index stays null. -/
def rsiAt (period : Nat) (closes : List ℚ) (i : Nat) : Option ℚ :=
  if period < i ∧ i < closes.length then
    computeRsi period ((closes.drop (i - period)).take (period + 1))
  else none

/-! ### Stochastic (`services/indicators/stochastic.rs`) -/

/-- One OHLC observation as used by the stochastic kernel (the source
tuples `(date, high, low, close)`). -/
structure PriceBar where
  date : Nat
  high : ℚ
  low : ℚ
  close : ℚ
  deriving DecidableEq, Repr

/-- Lowest low of a nonempty window (the source folds `f64::min` from
`+∞`). -/
def lowestLowOf (w : PriceBar) (ws : List PriceBar) : ℚ :=
  (ws.map (fun b => b.low)).foldl min w.low

/-- Highest high of a nonempty window (the source folds `f64::max` from
`-∞`). -/
def highestHighOf (w : PriceBar) (ws : List PriceBar) : ℚ :=
  (ws.map (fun b => b.high)).foldl max w.high

/-- Source `StochasticCalculator::compute_fast_k`. -/
def computeFastK (window : List PriceBar) : Option ℚ :=
  match window with
  | [] => none
  | w :: ws =>
    let lowestLow := lowestLowOf w ws
    let highestHigh := highestHighOf w ws
    let currentClose := (ws.getLastD w).close
    let denominator := highestHigh - lowestLow
    if denominator = 0 then some 0
    else some (100 * (currentClose - lowestLow) / denominator)

/-! ### StrategyService (`services/strategy_service.rs`) -/

/-- Step 3 of the handler: the per-currency wallet totals, folded exactly
like `WalletService::calculate_wallet_totals` (same actions, same signs). -/
def routeWalletTotals (txs : List WalletTx) (userId : Int) : List (String × ℚ) :=
  (txs.filter (fun tx => tx.userId = userId)).foldl
    (fun m tx => alAdd m tx.currency (walletDelta tx.action tx.amount)) []

/-- Step 4 of the handler: its own invested fold — skip trades whose symbol
has no stock row, add `quantite * prix_unitaire` for `achat` and subtract
it for `vente` (ignoring `quantite_restante`). -/
def routeInvestedAmounts (stocks : List Stock) (trades : List Trade)
    (userId : Int) : List (String × ℚ) :=
  (trades.filter (fun t => t.userId = userId)).foldl
    (fun m t =>
      match findStock stocks t.symbol with
      | none => m
      | some s =>
        let currency := s.currency.getD "CAD"
        let montant := t.quantite * t.prixUnitaire
        let delta :=
          if t.tradeType = "achat" then montant
          else if t.tradeType = "vente" then -montant
          else 0
        alAdd m currency delta) []

/-- Handler `routes/wallet.rs` `get_balance` (steps 3-5): the wallet fold, the
handler's own invested fold, then one `{total, invested, treasury}` row
per currency of either map, sorted by currency. -/
def routeGetBalance (stocks : List Stock) (txs : List WalletTx)
    (trades : List Trade) (userId : Int) : List CurrencyBalance :=
  let balances := routeWalletTotals txs userId
  let invested := routeInvestedAmounts stocks trades userId
  let currencies := sortStrings (alKeys balances ++ alKeys invested).dedup
  currencies.map (fun c =>
    { currency := c
      total := alGet balances c
      invested := alGet invested c
      treasury := alGet balances c - alGet invested c })

/-! ### Spec-side definitions (from the spec's words, for the refinement
comparisons) and derived notions used in theorem statements -/

/-- Daily changes of a close series: `closes[i] - closes[i-1]`. -/
def dailyChanges (closes : List ℚ) : List ℚ :=
  List.zipWith (fun prev cur => cur - prev) closes closes.tail

/-- Spec-side average gain: mean of the positive parts of the changes. -/
def specAvgGain (p : Nat) (changes : List ℚ) : ℚ :=
  (changes.map (fun c => max c 0)).sum / p

/-- Spec-side average loss: mean of the negative parts of the changes. -/
def specAvgLoss (p : Nat) (changes : List ℚ) : ℚ :=
  (changes.map (fun c => max (-c) 0)).sum / p

/-- Spec-side RSI from the averages. -/
def specRsi (avgGain avgLoss : ℚ) : ℚ :=
  if avgLoss = 0 then 100 else 100 - 100 / (1 + avgGain / avgLoss)

/-- Spec-side total for one currency: the signed fold of the user's ledger
entries in that currency. -/
def specTotal (txs : List WalletTx) (userId : Int) (c : String) : ℚ :=
  (((txs.filter (fun tx => tx.userId = userId)).filter
      (fun tx => tx.currency = c)).map
    (fun tx => walletDelta tx.action tx.amount)).sum

/-- Spec-side invested amount for one currency: the sum over the user's BUY
lots resolving to that currency of `quantite_restante * prix_unitaire`. -/
def specInvested (stocks : List Stock) (trades : List Trade) (userId : Int) (c : String) : ℚ :=
  ((((trades.filter (fun t => t.userId = userId)).filter
      (fun t => stockCurrencyOrCad stocks t.symbol = c)).filter
      (fun t => t.tradeType = "achat")).map
    (fun t => t.quantiteRestante * t.prixUnitaire)).sum

/-- Date order with ties broken by id (= insertion) order. -/
def dateIdLex (a b : Trade) : Prop :=
  a.date < b.date ∨ (a.date = b.date ∧ a.id < b.id)

/-- The stored `quantite_restante` of the trade row with id `tid` (0 if no
such row). -/
def remOf (trades : List Trade) (tid : Nat) : ℚ :=
  match trades.find? (fun t => t.id = tid) with
  | some t => t.quantiteRestante
  | none => 0

/-! ### Helper lemmas -/

theorem roundBankers_nonneg (q : ℚ) (h : 0 ≤ q) : 0 ≤ roundBankers q := by
  unfold roundBankers
  have hf : (0 : Int) ≤ ⌊q⌋ := Int.floor_nonneg.mpr h
  split_ifs <;> omega

theorem roundBankers_zero : roundBankers 0 = 0 := by
  unfold roundBankers
  norm_num

theorem roundBankers_nonpos (q : ℚ) (h : q ≤ 0) : roundBankers q ≤ 0 := by
  have hf : ⌊q⌋ ≤ 0 := Int.floor_nonpos h
  rcases lt_or_eq_of_le hf with h0 | h0
  · unfold roundBankers
    split_ifs <;> omega
  · have hq0 : q = 0 := by
      have h1 : (⌊q⌋ : ℚ) ≤ q := Int.floor_le q
      rw [h0] at h1
      push_cast at h1
      linarith
    rw [hq0, roundBankers_zero]

theorem parseI32_nonneg (n : Int) (h : 0 ≤ n) : 0 ≤ parseI32 n := by
  unfold parseI32
  split_ifs <;> omega

theorem parseI32_nonpos (n : Int) (h : n ≤ 0) : parseI32 n ≤ 0 := by
  unfold parseI32
  split_ifs <;> omega

/-! ### C7 — stochastic fast %K on a zero-range window -/

/-- C7: for every nonempty stochastic window whose highest high equals its
lowest low, `compute_fast_k` returns exactly `0` (no division is reached);
when the range is nonzero it returns the textbook quotient
`100 * (close - lowest_low) / (highest_high - lowest_low)`. -/
theorem c7_fast_k_zero_range (w : PriceBar) (ws : List PriceBar) :
    (highestHighOf w ws = lowestLowOf w ws → computeFastK (w :: ws) = some 0) ∧
    (highestHighOf w ws ≠ lowestLowOf w ws →
      computeFastK (w :: ws) =
        some (100 * ((ws.getLastD w).close - lowestLowOf w ws) /
          (highestHighOf w ws - lowestLowOf w ws))) := by
  constructor
  · intro h
    simp only [computeFastK, sub_eq_zero]
    rw [if_pos h]
  · intro h
    simp only [computeFastK, sub_eq_zero]
    rw [if_neg h]

/-- Witness for C7 at a flat one-bar window and a one-bar window with
range 2. -/
theorem c7_fast_k_zero_range_witness :
    computeFastK [{ date := 0, high := 5, low := 5, close := 5 }] = some 0 ∧
    computeFastK [{ date := 0, high := 5, low := 3, close := 4 }] = some 50 := by
  constructor
  · exact (c7_fast_k_zero_range { date := 0, high := 5, low := 5, close := 5 } []).1
      (by with_unfolding_all decide)
  · have h := (c7_fast_k_zero_range { date := 0, high := 5, low := 3, close := 4 } []).2
      (by with_unfolding_all decide)
    rw [h]
    with_unfolding_all decide

/-! ### C8 — sign of `pct_gain` -/

/-- C8 counterexample: a FIFO-settled sell at 1001 against a buy lot at 1000
produces a closed-trade record with `pct_gain = 0` even though the sell
price strictly exceeds the buy price (`round(0.1) = 0`), so the stored sign
does not match the sign of `sell_price - buy_price`. -/
theorem c8_counterexample :
    let env : Env :=
      { stocks := [{ compagnyName := "Apple", symbolAlphavantage := some "AAPL",
                     currency := some "CAD" }]
        wallet := [{ userId := 1, date := 0, action := "ajout", symbol := none,
                     amount := 100000, currency := "CAD" }] }
    let final := runTrades env initState
      [(1, { symbol := "AAPL", tradeType := "achat", quantite := 1,
             prixUnitaire := 1000, date := 1 }),
       (1, { symbol := "AAPL", tradeType := "vente", quantite := 1,
             prixUnitaire := 1001, date := 2 })]
    ∃ c ∈ final.closedTrades, c.prixAchat < c.prixVente ∧ ¬ 0 < c.pourcentageGain := by
  refine ⟨{ userId := 1, symbol := "AAPL", dateAchat := 1, prixAchat := 1000,
            dateVente := 2, prixVente := 1001, pourcentageGain := 0, gainDollars := 1,
            tempsJours := 1, tradeAchatId := 0, tradeVenteId := 1, quantity := 1 },
          ?_, ?_, ?_⟩
  · with_unfolding_all decide
  · with_unfolding_all decide
  · with_unfolding_all decide

/-- C8 amended: the stored `pct_gain` never has the strictly opposite sign
of `sell_price - buy_price` — it is nonnegative when the sell price exceeds
the buy price, nonpositive when below, and zero when equal — but because
the percentage is rounded to the nearest integer it can be `0` while the
prices differ (see the counterexample). -/
theorem c8_pct_gain_weak_sign (userId : Int) (buyTrade saleTrade : Trade) (q : ℚ)
    (hb : 0 < buyTrade.prixUnitaire) :
    (buyTrade.prixUnitaire < saleTrade.prixUnitaire →
      0 ≤ (mkClosedTrade userId buyTrade saleTrade q).pourcentageGain) ∧
    (saleTrade.prixUnitaire < buyTrade.prixUnitaire →
      (mkClosedTrade userId buyTrade saleTrade q).pourcentageGain ≤ 0) ∧
    (saleTrade.prixUnitaire = buyTrade.prixUnitaire →
      (mkClosedTrade userId buyTrade saleTrade q).pourcentageGain = 0) := by
  refine ⟨?_, ?_, ?_⟩
  · intro h
    apply parseI32_nonneg
    apply roundBankers_nonneg
    have h1 : 0 < saleTrade.prixUnitaire - buyTrade.prixUnitaire := by linarith
    positivity
  · intro h
    apply parseI32_nonpos
    apply roundBankers_nonpos
    have h1 : saleTrade.prixUnitaire - buyTrade.prixUnitaire ≤ 0 := by linarith
    have h2 : (saleTrade.prixUnitaire - buyTrade.prixUnitaire) / buyTrade.prixUnitaire ≤ 0 :=
      div_nonpos_of_nonpos_of_nonneg h1 (le_of_lt hb)
    nlinarith
  · intro h
    simp only [mkClosedTrade, h, sub_self, zero_div, zero_mul, roundBankers_zero]
    rfl

/-- Witness for C8 amended at a concrete profitable fragment. -/
theorem c8_pct_gain_weak_sign_witness :
    0 ≤ (mkClosedTrade 1
      { id := 0, userId := 1, date := 1, symbol := "A", tradeType := "achat",
        quantite := 1, prixUnitaire := 50, prixTotal := 50, quantiteRestante := 1 }
      { id := 1, userId := 1, date := 2, symbol := "A", tradeType := "vente",
        quantite := 1, prixUnitaire := 60, prixTotal := 60, quantiteRestante := 0 }
      1).pourcentageGain :=
  (c8_pct_gain_weak_sign 1
    { id := 0, userId := 1, date := 1, symbol := "A", tradeType := "achat",
      quantite := 1, prixUnitaire := 50, prixTotal := 50, quantiteRestante := 1 }
    { id := 1, userId := 1, date := 2, symbol := "A", tradeType := "vente",
      quantite := 1, prixUnitaire := 60, prixTotal := 60, quantiteRestante := 0 }
    1 (by norm_num)).1 (by norm_num)

/-! ### C9 — strategy-result upsert -/

/-- C4: for a BUY request whose symbol resolves to a stock, `create_trade`
inserts the lot (with `quantite_restante = quantite`) exactly when the
user's treasury in the stock's currency covers `quantite * prix_unitaire`;
otherwise it fails before any insertion — the store is returned unchanged —
with an insufficient-funds error carrying the available treasury, the
required amount and the shortfall `required - available` in that
currency. -/
theorem c4_buy_funds_gate (env : Env) (st : DBState) (userId : Int)
    (req : CreateTradeRequest) (s : Stock)
    (htype : req.tradeType = "achat")
    (hstock : findStock env.stocks req.symbol = some s) :
    (getTreasuryForCurrency env.stocks env.wallet st.trades userId (s.currency.getD "CAD") <
        req.quantite * req.prixUnitaire →
      createTrade env st userId req =
        (st, some (.insufficientFunds
          { available := getTreasuryForCurrency env.stocks env.wallet st.trades userId
              (s.currency.getD "CAD")
            requiredAmount := req.quantite * req.prixUnitaire
            shortage := req.quantite * req.prixUnitaire -
              getTreasuryForCurrency env.stocks env.wallet st.trades userId
                (s.currency.getD "CAD")
            currency := s.currency.getD "CAD" }))) ∧
    (req.quantite * req.prixUnitaire ≤
        getTreasuryForCurrency env.stocks env.wallet st.trades userId (s.currency.getD "CAD") →
      createTrade env st userId req =
        ({ trades := st.trades ++
            [{ id := st.nextId, userId := userId, date := req.date, symbol := req.symbol,
               tradeType := req.tradeType, quantite := req.quantite,
               prixUnitaire := req.prixUnitaire,
               prixTotal := req.quantite * req.prixUnitaire,
               quantiteRestante := req.quantite }],
           closedTrades := st.closedTrades, nextId := st.nextId + 1 }, none)) := by
  constructor
  · intro h
    simp only [createTrade, buyGate, htype, hstock, hasSufficientFunds,
      getInsufficientFundsMessage, reduceIte]
    rw [if_neg (by simpa using not_le.mpr h)]
  · intro h
    simp only [createTrade, buyGate, htype, hstock, hasSufficientFunds, reduceIte]
    rw [if_pos (by simpa using h), if_neg (by decide)]

/-- Witness for C4: with a 1000 CAD deposit, buying 20 units at 60 CAD
(1200 required) is rejected with available 1000 and shortage 200. -/
theorem c4_buy_funds_gate_witness :
    createTrade
      { stocks := [{ compagnyName := "Apple", symbolAlphavantage := some "AAPL",
                     currency := some "CAD" }]
        wallet := [{ userId := 1, date := 0, action := "ajout", symbol := none,
                     amount := 1000, currency := "CAD" }] }
      initState 1
      { symbol := "AAPL", tradeType := "achat", quantite := 20, prixUnitaire := 60, date := 1 } =
      (initState, some (.insufficientFunds
        { available := 1000, requiredAmount := 1200, shortage := 200, currency := "CAD" })) := by
  have h := (c4_buy_funds_gate
    { stocks := [{ compagnyName := "Apple", symbolAlphavantage := some "AAPL",
                   currency := some "CAD" }]
      wallet := [{ userId := 1, date := 0, action := "ajout", symbol := none,
                   amount := 1000, currency := "CAD" }] }
    initState 1
    { symbol := "AAPL", tradeType := "achat", quantite := 20, prixUnitaire := 60, date := 1 }
    { compagnyName := "Apple", symbolAlphavantage := some "AAPL", currency := some "CAD" }
    rfl (by with_unfolding_all decide)).1 (by with_unfolding_all decide)
  rw [h]
  with_unfolding_all decide

/-! ### C6 — RSI formula

Spec-side definitions (from the spec's words): Wilder-style average gain
and loss over a list of daily changes, and `RSI = 100 - 100/(1+RS)` with
`RS = avg_gain/avg_loss`, `RSI = 100` when `avg_loss = 0`. -/

theorem posPart_eq (c : ℚ) : (if 0 < c then c else 0) = max c 0 := by
  rcases le_or_lt c 0 with h | h
  · rw [if_neg (not_lt.mpr h), max_eq_right h]
  · rw [if_pos h, max_eq_left (le_of_lt h)]

theorem negPart_eq (c : ℚ) : (if 0 < c then 0 else -c) = max (-c) 0 := by
  rcases le_or_lt c 0 with h | h
  · rw [if_neg (not_lt.mpr h), max_eq_left (by linarith)]
  · rw [if_pos h, max_eq_right (by linarith)]

/-- C6: at every index of a symbol's close series, the computed RSI(25) is
null when at most 25 prior observations exist, and otherwise equals
`100 - 100/(1+RS)` with `RS = avg_gain/avg_loss` over the trailing 25
daily changes — exactly `100` when the average loss is zero (the
`specRsi` branch). -/
theorem c6_rsi_formula (closes : List ℚ) (i : Nat) (hi : i < closes.length) :
    (i ≤ 25 → rsiAt 25 closes i = none) ∧
    (25 < i →
      rsiAt 25 closes i =
        some (specRsi
          (specAvgGain 25 (dailyChanges ((closes.drop (i - 25)).take 26)))
          (specAvgLoss 25 (dailyChanges ((closes.drop (i - 25)).take 26))))) := by
  constructor
  · intro h
    unfold rsiAt
    rw [if_neg (by omega)]
  · intro h25
    unfold rsiAt
    rw [if_pos ⟨h25, hi⟩]
    have hwlen : ((closes.drop (i - 25)).take 26).length = 26 := by
      rw [List.length_take, List.length_drop]
      omega
    have hch : (List.zipWith (fun prev cur => cur - prev)
        ((closes.drop (i - 25)).take 26) ((closes.drop (i - 25)).take 26).tail).length = 25 := by
      rw [List.length_zipWith, List.length_tail, hwlen]
      norm_num
    unfold computeRsi
    rw [if_neg (by rw [hwlen]; norm_num)]
    simp only [posPart_eq, negPart_eq, List.length_map, hch, Nat.sub_self, List.drop_zero]
    unfold specRsi specAvgGain specAvgLoss dailyChanges
    split_ifs with hz
    · rfl
    · rfl

/-- Witness for C6: a constant 27-long close series at index 26 has average
loss 0, so the RSI is exactly 100; at index 25 it is null. -/
theorem c6_rsi_formula_witness :
    rsiAt 25 (List.replicate 27 1) 26 = some 100 ∧
    rsiAt 25 (List.replicate 27 1) 25 = none := by
  constructor
  · have h := (c6_rsi_formula (List.replicate 27 1) 26 (by with_unfolding_all decide)).2
      (by with_unfolding_all decide)
    rw [h]
    with_unfolding_all decide
  · exact (c6_rsi_formula (List.replicate 27 1) 25 (by with_unfolding_all decide)).1
      (by with_unfolding_all decide)

/-! ### C5 — balance triples -/

theorem alGet_alAdd (m : List (String × ℚ)) (k : String) (d : ℚ) (c : String) :
    alGet (alAdd m k d) c = alGet m c + (if k = c then d else 0) := by
  induction m with
  | nil =>
    by_cases h : k = c <;> simp [alAdd, alGet, h]
  | cons p rest ih =>
    rcases p with ⟨k', v⟩
    by_cases h1 : k' = k
    · subst h1
      by_cases h2 : k' = c <;> simp [alAdd, alGet, h2]
    · by_cases h2 : k' = c
      · subst h2
        have hkc : ¬ k = k' := fun h => h1 h.symm
        simp [alAdd, alGet, h1, hkc]
      · simp [alAdd, alGet, h1, h2, ih]

theorem alKeys_alAdd (m : List (String × ℚ)) (k : String) (d : ℚ) :
    alKeys (alAdd m k d) = if k ∈ alKeys m then alKeys m else alKeys m ++ [k] := by
  induction m with
  | nil => simp [alAdd, alKeys]
  | cons p rest ih =>
    rcases p with ⟨k', v⟩
    by_cases h1 : k' = k
    · subst h1
      simp [alAdd, alKeys]
    · have hstep : alAdd ((k', v) :: rest) k d = (k', v) :: alAdd rest k d := by
        simp [alAdd, h1]
      rw [hstep]
      have hkeys : alKeys ((k', v) :: alAdd rest k d) = k' :: alKeys (alAdd rest k d) := rfl
      have hkeys' : alKeys ((k', v) :: rest) = k' :: alKeys rest := rfl
      rw [hkeys, hkeys', ih]
      by_cases h2 : k ∈ alKeys rest
      · rw [if_pos h2, if_pos (List.mem_cons_of_mem _ h2)]
      · rw [if_neg h2, if_neg (by
          intro hc
          rcases List.mem_cons.mp hc with hc | hc
          · exact h1 hc.symm
          · exact h2 hc)]
        rfl

theorem mem_alKeys_alAdd (m : List (String × ℚ)) (k : String) (d : ℚ) (c : String) :
    c ∈ alKeys (alAdd m k d) ↔ c = k ∨ c ∈ alKeys m := by
  rw [alKeys_alAdd]
  split_ifs with h
  · constructor
    · exact Or.inr
    · rintro (rfl | hc)
      · exact h
      · exact hc
  · rw [List.mem_append, List.mem_singleton]
    tauto

theorem alGet_foldl_alAdd {α : Type} (key : α → String) (val : α → ℚ)
    (l : List α) (init : List (String × ℚ)) (c : String) :
    alGet (l.foldl (fun m x => alAdd m (key x) (val x)) init) c =
      alGet init c + ((l.filter (fun x => key x = c)).map val).sum := by
  induction l generalizing init with
  | nil => simp
  | cons x xs ih =>
    simp only [List.foldl_cons]
    rw [ih, alGet_alAdd]
    by_cases h : key x = c
    · rw [List.filter_cons_of_pos (by simpa using h)]
      simp only [List.map_cons, List.sum_cons, if_pos h]
      ring
    · rw [List.filter_cons_of_neg (by simpa using h), if_neg h]
      ring

theorem mem_alKeys_foldl {α : Type} (key : α → String) (val : α → ℚ)
    (l : List α) (init : List (String × ℚ)) (c : String) :
    c ∈ alKeys (l.foldl (fun m x => alAdd m (key x) (val x)) init) ↔
      c ∈ alKeys init ∨ ∃ x ∈ l, key x = c := by
  induction l generalizing init with
  | nil => simp
  | cons x xs ih =>
    simp only [List.foldl_cons]
    rw [ih, mem_alKeys_alAdd]
    constructor
    · rintro (⟨h | h⟩ | h)
      · exact Or.inr ⟨x, List.mem_cons_self x xs, h.symm⟩
      · exact Or.inl h
      · rcases h with ⟨y, hy, hk⟩
        exact Or.inr ⟨y, List.mem_cons_of_mem x hy, hk⟩
    · rintro (h | ⟨y, hy, hk⟩)
      · exact Or.inl (Or.inr h)
      · rcases List.mem_cons.mp hy with h | h
        · subst h
          exact Or.inl (Or.inl hk.symm)
        · exact Or.inr ⟨y, h, hk⟩

theorem insertStr_perm (x : String) (l : List String) :
    List.Perm (insertStr x l) (x :: l) := by
  induction l with
  | nil => rfl
  | cons y ys ih =>
    unfold insertStr
    by_cases h : strLe x y
    · rw [if_pos h]
    · rw [if_neg h]
      exact (ih.cons y).trans (List.Perm.swap x y ys)

theorem sortStrings_perm (l : List String) : List.Perm (sortStrings l) l := by
  induction l with
  | nil => rfl
  | cons x xs ih =>
    have : sortStrings (x :: xs) = insertStr x (sortStrings xs) := rfl
    rw [this]
    exact (insertStr_perm x (sortStrings xs)).trans (ih.cons x)

theorem sum_map_ite {α : Type} (l : List α) (p : α → Prop) [DecidablePred p] (f : α → ℚ) :
    (l.map (fun x => if p x then f x else 0)).sum =
      ((l.filter (fun x => decide (p x))).map f).sum := by
  induction l with
  | nil => rfl
  | cons x xs ih =>
    by_cases h : p x <;> simp [List.filter_cons, h, ih]

/-- C5: every row `calculate_balances` returns carries exactly
`total = specTotal`, `invested = specInvested` and
`treasury = total - invested` for its currency; a row exists exactly for
the currencies touched by the user's ledger entries or by the invested
aggregation over the user's trades (so a currency present on one side only
gets the other side's sum, which is `0`); and no currency is listed
twice. -/
theorem c5_balance_triples (stocks : List Stock) (txs : List WalletTx)
    (trades : List Trade) (userId : Int) :
    (∀ b ∈ calculateBalances stocks txs trades userId,
      b.total = specTotal txs userId b.currency ∧
      b.invested = specInvested stocks trades userId b.currency ∧
      b.treasury = b.total - b.invested) ∧
    (∀ c : String,
      ((∃ tx ∈ txs, tx.userId = userId ∧ tx.currency = c) ∨
        (∃ t ∈ trades, t.userId = userId ∧ stockCurrencyOrCad stocks t.symbol = c)) ↔
      ∃ b ∈ calculateBalances stocks txs trades userId, b.currency = c) ∧
    ((calculateBalances stocks txs trades userId).map
      (fun b => b.currency)).Nodup := by
  have htot : ∀ c, alGet (calculateWalletTotals txs userId) c = specTotal txs userId c := by
    intro c
    have h := alGet_foldl_alAdd (fun tx : WalletTx => tx.currency)
      (fun tx : WalletTx => walletDelta tx.action tx.amount)
      (txs.filter (fun tx => tx.userId = userId)) [] c
    unfold calculateWalletTotals specTotal
    simpa [alGet] using h
  have hinv : ∀ c, alGet (calculateInvestedAmounts stocks trades userId) c =
      specInvested stocks trades userId c := by
    intro c
    have h := alGet_foldl_alAdd (fun t : Trade => stockCurrencyOrCad stocks t.symbol)
      (fun t : Trade => if t.tradeType = "achat" then t.quantiteRestante * t.prixUnitaire else 0)
      (trades.filter (fun t => t.userId = userId)) [] c
    rw [sum_map_ite ((trades.filter (fun t => t.userId = userId)).filter
        (fun t => decide (stockCurrencyOrCad stocks t.symbol = c)))
      (fun t => t.tradeType = "achat")
      (fun t => t.quantiteRestante * t.prixUnitaire)] at h
    unfold calculateInvestedAmounts specInvested
    simpa [alGet] using h
  have hmemtot : ∀ c, c ∈ alKeys (calculateWalletTotals txs userId) ↔
      ∃ tx ∈ txs, tx.userId = userId ∧ tx.currency = c := by
    intro c
    have h := mem_alKeys_foldl (fun tx : WalletTx => tx.currency)
      (fun tx : WalletTx => walletDelta tx.action tx.amount)
      (txs.filter (fun tx => tx.userId = userId)) [] c
    unfold calculateWalletTotals
    rw [h]
    simp only [alKeys, List.map_nil, List.not_mem_nil, false_or, List.mem_filter,
      decide_eq_true_eq]
    constructor
    · rintro ⟨tx, ⟨h1, h2⟩, h3⟩
      exact ⟨tx, h1, h2, h3⟩
    · rintro ⟨tx, h1, h2, h3⟩
      exact ⟨tx, ⟨h1, h2⟩, h3⟩
  have hmeminv : ∀ c, c ∈ alKeys (calculateInvestedAmounts stocks trades userId) ↔
      ∃ t ∈ trades, t.userId = userId ∧ stockCurrencyOrCad stocks t.symbol = c := by
    intro c
    have h := mem_alKeys_foldl (fun t : Trade => stockCurrencyOrCad stocks t.symbol)
      (fun t : Trade => if t.tradeType = "achat" then t.quantiteRestante * t.prixUnitaire else 0)
      (trades.filter (fun t => t.userId = userId)) [] c
    unfold calculateInvestedAmounts
    rw [h]
    simp only [alKeys, List.map_nil, List.not_mem_nil, false_or, List.mem_filter,
      decide_eq_true_eq]
    constructor
    · rintro ⟨t, ⟨h1, h2⟩, h3⟩
      exact ⟨t, h1, h2, h3⟩
    · rintro ⟨t, h1, h2, h3⟩
      exact ⟨t, ⟨h1, h2⟩, h3⟩
  refine ⟨?_, ?_, ?_⟩
  · intro b hb
    unfold calculateBalances at hb
    rcases List.mem_map.mp hb with ⟨c, _, hb⟩
    subst hb
    exact ⟨htot c, hinv c, rfl⟩
  · intro c
    unfold calculateBalances
    constructor
    · intro h
      refine ⟨_, List.mem_map.mpr ⟨c, ?_, rfl⟩, rfl⟩
      rw [List.Perm.mem_iff (sortStrings_perm _), List.mem_dedup, List.mem_append]
      rcases h with h | h
      · exact Or.inl ((hmemtot c).mpr h)
      · exact Or.inr ((hmeminv c).mpr h)
    · rintro ⟨b, hb, hbc⟩
      rcases List.mem_map.mp hb with ⟨c', hc', hb⟩
      subst hb
      subst hbc
      rw [List.Perm.mem_iff (sortStrings_perm _), List.mem_dedup, List.mem_append] at hc'
      rcases hc' with h | h
      · exact Or.inl ((hmemtot _).mp h)
      · exact Or.inr ((hmeminv _).mp h)
  · unfold calculateBalances
    rw [List.map_map]
    have : ((fun b : CurrencyBalance => b.currency) ∘ fun c =>
        ({ currency := c,
           total := alGet (calculateWalletTotals txs userId) c,
           invested := alGet (calculateInvestedAmounts stocks trades userId) c,
           treasury := alGet (calculateWalletTotals txs userId) c -
             alGet (calculateInvestedAmounts stocks trades userId) c } : CurrencyBalance)) =
        id := rfl
    rw [this, List.map_id]
    exact ((sortStrings_perm _).nodup_iff).mpr (List.nodup_dedup _)

/-- Witness for C5: one CAD deposit and no trades yields the CAD row with
`treasury = total - invested`. -/
theorem c5_balance_triples_witness :
    ∃ b ∈ calculateBalances []
      [{ userId := 1, date := 0, action := "ajout", symbol := none,
         amount := 1000, currency := "CAD" }] [] 1, b.currency = "CAD" := by
  have h := (c5_balance_triples []
    [{ userId := 1, date := 0, action := "ajout", symbol := none,
       amount := 1000, currency := "CAD" }] [] 1).2.1 "CAD"
  exact h.mp (Or.inl ⟨_, List.mem_singleton_self _, rfl, rfl⟩)

/-! ### C10 — route handler vs service balances -/

/-- The handler's wallet fold is the service's wallet fold. -/
theorem routeWalletTotals_eq (txs : List WalletTx) (userId : Int) :
    routeWalletTotals txs userId = calculateWalletTotals txs userId := rfl

/-- C10 counterexample: after a reachable history — deposit 1000 CAD, buy
10 AAPL at 50, sell 4 at 60 — the service used to gate buys reports
invested 300 (remaining 6 lots × 50) and treasury 700, while the
`GET /api/wallet/balance` handler reports invested 260 (500 − 240, full
quantities signed by side) and treasury 740; the two computations are not
equivalent. -/
theorem c10_counterexample :
    let env : Env :=
      { stocks := [{ compagnyName := "Apple", symbolAlphavantage := some "AAPL",
                     currency := some "CAD" }]
        wallet := [{ userId := 1, date := 0, action := "ajout", symbol := none,
                     amount := 1000, currency := "CAD" }] }
    let final := runTrades env initState
      [(1, { symbol := "AAPL", tradeType := "achat", quantite := 10,
             prixUnitaire := 50, date := 1 }),
       (1, { symbol := "AAPL", tradeType := "vente", quantite := 4,
             prixUnitaire := 60, date := 2 })]
    calculateBalances env.stocks env.wallet final.trades 1 =
      [{ currency := "CAD", total := 1000, invested := 300, treasury := 700 }] ∧
    routeGetBalance env.stocks env.wallet final.trades 1 =
      [{ currency := "CAD", total := 1000, invested := 260, treasury := 740 }] ∧
    routeGetBalance env.stocks env.wallet final.trades 1 ≠
      calculateBalances env.stocks env.wallet final.trades 1 := by
  refine ⟨?_, ?_, ?_⟩
  · with_unfolding_all decide
  · with_unfolding_all decide
  · with_unfolding_all decide

/-- The two invested folds agree on a store of pure, unconsumed, resolvable
buys. -/
theorem routeInvested_eq_service (stocks : List Stock) (trades : List Trade)
    (userId : Int)
    (h : ∀ t ∈ trades, t.tradeType = "achat" ∧ t.quantiteRestante = t.quantite ∧
      (findStock stocks t.symbol).isSome = true) :
    routeInvestedAmounts stocks trades userId =
      calculateInvestedAmounts stocks trades userId := by
  suffices h2 : ∀ (l : List Trade),
      (∀ t ∈ l, t.tradeType = "achat" ∧ t.quantiteRestante = t.quantite ∧
        (findStock stocks t.symbol).isSome = true) →
      ∀ m : List (String × ℚ),
        l.foldl (fun m t =>
          match findStock stocks t.symbol with
          | none => m
          | some s => alAdd m (s.currency.getD "CAD")
              (if t.tradeType = "achat" then t.quantite * t.prixUnitaire
               else if t.tradeType = "vente" then -(t.quantite * t.prixUnitaire) else 0)) m =
        l.foldl (fun m t => alAdd m (stockCurrencyOrCad stocks t.symbol)
          (if t.tradeType = "achat" then t.quantiteRestante * t.prixUnitaire else 0)) m by
    unfold routeInvestedAmounts calculateInvestedAmounts
    exact h2 _ (fun t ht => h t (List.mem_of_mem_filter ht)) []
  intro l
  induction l with
  | nil =>
    intro _ m
    rfl
  | cons t ts ih =>
    intro hl m
    obtain ⟨htype, hrest, hsome⟩ := hl t (List.mem_cons_self t ts)
    rcases hs : findStock stocks t.symbol with _ | s
    · rw [hs] at hsome
      simp at hsome
    · have hcur : stockCurrencyOrCad stocks t.symbol = s.currency.getD "CAD" := by
        unfold stockCurrencyOrCad
        rw [hs]
      simp only [List.foldl_cons, hs, hcur, if_pos htype, hrest]
      exact ih (fun t' ht' => hl t' (List.mem_cons_of_mem t ht')) _

/-- C10 amended: the route handler's balances agree with
`WalletService::calculate_balances` only on restricted stores — when every
trade of the user is a BUY whose `quantite_restante` still equals
`quantite` and whose symbol resolves to a stock row.  In general they
disagree: the handler sums full `quantite * prix_unitaire` signed by side
and skips unresolvable symbols, while the service sums
`quantite_restante * prix_unitaire` over BUY lots and defaults
unresolvable symbols to CAD (see the counterexample, where a partially
consumed lot makes the displayed treasury differ from the one that gates
buys). -/
theorem c10_route_equals_service_on_pure_buys (stocks : List Stock)
    (txs : List WalletTx) (trades : List Trade) (userId : Int)
    (h : ∀ t ∈ trades, t.tradeType = "achat" ∧ t.quantiteRestante = t.quantite ∧
      (findStock stocks t.symbol).isSome = true) :
    routeGetBalance stocks txs trades userId =
      calculateBalances stocks txs trades userId := by
  unfold routeGetBalance calculateBalances
  rw [routeWalletTotals_eq, routeInvested_eq_service stocks trades userId h]

/-- Witness for C10 amended: a single fresh buy lot, displayed and gated
identically. -/
theorem c10_route_equals_service_on_pure_buys_witness :
    routeGetBalance
      [{ compagnyName := "Apple", symbolAlphavantage := some "AAPL", currency := some "CAD" }]
      [{ userId := 1, date := 0, action := "ajout", symbol := none,
         amount := 1000, currency := "CAD" }]
      [{ id := 0, userId := 1, date := 1, symbol := "AAPL", tradeType := "achat",
         quantite := 10, prixUnitaire := 50, prixTotal := 500, quantiteRestante := 10 }] 1 =
    calculateBalances
      [{ compagnyName := "Apple", symbolAlphavantage := some "AAPL", currency := some "CAD" }]
      [{ userId := 1, date := 0, action := "ajout", symbol := none,
         amount := 1000, currency := "CAD" }]
      [{ id := 0, userId := 1, date := 1, symbol := "AAPL", tradeType := "achat",
         quantite := 10, prixUnitaire := 50, prixTotal := 500, quantiteRestante := 10 }] 1 :=
  c10_route_equals_service_on_pure_buys
    [{ compagnyName := "Apple", symbolAlphavantage := some "AAPL", currency := some "CAD" }]
    [{ userId := 1, date := 0, action := "ajout", symbol := none,
       amount := 1000, currency := "CAD" }]
    [{ id := 0, userId := 1, date := 1, symbol := "AAPL", tradeType := "achat",
       quantite := 10, prixUnitaire := 50, prixTotal := 500, quantiteRestante := 10 }] 1
    (by with_unfolding_all decide)

/-! ### C1/C2/C3 — FIFO settlement: infrastructure -/

theorem mem_insertByDate (t x : Trade) (l : List Trade) :
    x ∈ insertByDate t l ↔ x = t ∨ x ∈ l := by
  induction l with
  | nil => simp [insertByDate]
  | cons y ys ih =>
    unfold insertByDate
    by_cases h : y.date ≤ t.date
    · rw [if_pos h]
      simp only [List.mem_cons, ih]
      tauto
    · rw [if_neg h]
      simp only [List.mem_cons]

theorem insertByDate_perm (t : Trade) (l : List Trade) :
    List.Perm (insertByDate t l) (t :: l) := by
  induction l with
  | nil => rfl
  | cons y ys ih =>
    unfold insertByDate
    by_cases h : y.date ≤ t.date
    · rw [if_pos h]
      exact (ih.cons y).trans (List.Perm.swap t y ys)
    · rw [if_neg h]

theorem sortByDate_perm (l : List Trade) : List.Perm (sortByDate l) l := by
  suffices h : ∀ (l acc : List Trade),
      List.Perm (l.foldl (fun acc t => insertByDate t acc) acc) (acc ++ l) by
    simpa using h l []
  intro l
  induction l with
  | nil =>
    intro acc
    simp
  | cons x xs ih =>
    intro acc
    simp only [List.foldl_cons]
    refine ((ih (insertByDate x acc)).trans ?_)
    refine (((insertByDate_perm x acc).append_right xs).trans ?_)
    exact List.perm_middle.symm

theorem mem_sortByDate (x : Trade) (l : List Trade) :
    x ∈ sortByDate l ↔ x ∈ l :=
  (sortByDate_perm l).mem_iff

theorem insertByDate_pairwise (t : Trade) (acc : List Trade)
    (hacc : acc.Pairwise dateIdLex) (hid : ∀ a ∈ acc, a.id < t.id) :
    (insertByDate t acc).Pairwise dateIdLex := by
  induction acc with
  | nil => simp [insertByDate]
  | cons x xs ih =>
    rcases List.pairwise_cons.mp hacc with ⟨hx, hxs⟩
    unfold insertByDate
    by_cases h : x.date ≤ t.date
    · rw [if_pos h]
      rw [List.pairwise_cons]
      constructor
      · intro b hb
        rcases (mem_insertByDate t b xs).mp hb with rfl | hbxs
        · rcases lt_or_eq_of_le h with h' | h'
          · exact Or.inl h'
          · exact Or.inr ⟨h', hid x (List.mem_cons_self x xs)⟩
        · exact hx b hbxs
      · exact ih hxs (fun a ha => hid a (List.mem_cons_of_mem x ha))
    · rw [if_neg h]
      push_neg at h
      rw [List.pairwise_cons]
      refine ⟨?_, hacc⟩
      intro b hb
      rcases List.mem_cons.mp hb with rfl | hbxs
      · exact Or.inl h
      · rcases hx b hbxs with h2 | h2
        · exact Or.inl (lt_trans h h2)
        · exact Or.inl (lt_of_lt_of_le h (le_of_eq h2.1))

theorem sortByDate_pairwise (l : List Trade)
    (h : l.Pairwise (fun a b => a.id < b.id)) :
    (sortByDate l).Pairwise dateIdLex := by
  suffices h2 : ∀ (l acc : List Trade),
      l.Pairwise (fun a b => a.id < b.id) →
      acc.Pairwise dateIdLex →
      (∀ a ∈ acc, ∀ b ∈ l, a.id < b.id) →
      (l.foldl (fun acc t => insertByDate t acc) acc).Pairwise dateIdLex by
    exact h2 l [] h List.Pairwise.nil (by simp)
  intro l
  induction l with
  | nil =>
    intro acc _ hacc _
    exact hacc
  | cons x xs ih =>
    intro acc hl hacc hdom
    simp only [List.foldl_cons]
    rcases List.pairwise_cons.mp hl with ⟨hx, hxs⟩
    apply ih _ hxs
    · exact insertByDate_pairwise x acc hacc
        (fun a ha => hdom a ha x (List.mem_cons_self x xs))
    · intro a ha b hb
      rcases (mem_insertByDate x a acc).mp ha with rfl | haacc
      · exact hx b hb
      · exact hdom a haacc b (List.mem_cons_of_mem x hb)

theorem eq_of_mem_of_id_eq (l : List Trade)
    (hp : l.Pairwise (fun a b => a.id < b.id))
    (a b : Trade) (ha : a ∈ l) (hb : b ∈ l) (hid : a.id = b.id) : a = b := by
  induction l with
  | nil => cases ha
  | cons x xs ih =>
    rcases List.pairwise_cons.mp hp with ⟨hx, hxs⟩
    rcases List.mem_cons.mp ha with rfl | ha' <;> rcases List.mem_cons.mp hb with h | hb'
    · rw [h]
    · exact absurd hid (Nat.ne_of_lt (hx b hb'))
    · rw [h] at hid
      exact absurd hid.symm (Nat.ne_of_lt (hx a ha'))
    · exact ih hxs ha' hb'

theorem find?_id_of_pairwise (l : List Trade) (t : Trade)
    (hp : l.Pairwise (fun a b => a.id < b.id)) (ht : t ∈ l) :
    l.find? (fun x => x.id = t.id) = some t := by
  induction l with
  | nil => cases ht
  | cons x xs ih =>
    rcases List.pairwise_cons.mp hp with ⟨hx, hxs⟩
    rcases List.mem_cons.mp ht with rfl | hmem
    · rw [List.find?_cons_of_pos _ (by simp)]
    · rw [List.find?_cons_of_neg _ (by simpa using Nat.ne_of_lt (hx t hmem)),
        ih hxs hmem]

theorem remOf_of_mem (l : List Trade) (t : Trade)
    (hp : l.Pairwise (fun a b => a.id < b.id)) (ht : t ∈ l) :
    remOf l t.id = t.quantiteRestante := by
  unfold remOf
  rw [find?_id_of_pairwise l t hp ht]

theorem updateLot_id_map (l : List Trade) (tid : Nat) (v : ℚ) :
    (updateLot l tid v).map (fun t => t.id) = l.map (fun t => t.id) := by
  unfold updateLot
  rw [List.map_map]
  apply List.map_congr_left
  intro t _
  by_cases h : t.id = tid <;> simp [h]

set_option linter.unnecessarySimpa false in
theorem updateLot_pairwise (l : List Trade) (tid : Nat) (v : ℚ)
    (hp : l.Pairwise (fun a b => a.id < b.id)) :
    (updateLot l tid v).Pairwise (fun a b => a.id < b.id) := by
  unfold updateLot
  rw [List.pairwise_map]
  refine List.Pairwise.imp ?_ hp
  intro a b hab
  by_cases h1 : a.id = tid <;> by_cases h2 : b.id = tid <;> simpa [h1, h2] using hab

theorem mem_updateLot_of_ne (l : List Trade) (tid : Nat) (v : ℚ) (t : Trade)
    (ht : t ∈ l) (hne : t.id ≠ tid) : t ∈ updateLot l tid v :=
  List.mem_map.mpr ⟨t, ht, by simp [hne]⟩

theorem remOf_updateLot_self (l : List Trade) (lot : Trade) (v : ℚ)
    (hp : l.Pairwise (fun a b => a.id < b.id)) (hmem : lot ∈ l) :
    remOf (updateLot l lot.id v) lot.id = v := by
  have hmem' : ({ lot with quantiteRestante := v }) ∈ updateLot l lot.id v :=
    List.mem_map.mpr ⟨lot, hmem, by simp⟩
  have hfind := find?_id_of_pairwise (updateLot l lot.id v)
    { lot with quantiteRestante := v } (updateLot_pairwise l lot.id v hp) hmem'
  unfold remOf
  rw [hfind]

theorem remOf_updateLot_other (l : List Trade) (tid tid' : Nat) (v : ℚ)
    (hne : tid' ≠ tid) : remOf (updateLot l tid v) tid' = remOf l tid' := by
  unfold remOf updateLot
  induction l with
  | nil => rfl
  | cons x xs ih =>
    simp only [List.map_cons]
    by_cases h2 : x.id = tid'
    · have hxid : ¬ x.id = tid := by
        rw [h2]
        exact hne
      rw [if_neg hxid, List.find?_cons_of_pos _ (by simpa using h2),
        List.find?_cons_of_pos _ (by simpa using h2)]
    · by_cases h1 : x.id = tid
      · rw [if_pos h1, List.find?_cons_of_neg _ (by simpa using h2),
          List.find?_cons_of_neg _ (by simpa using h2)]
        exact ih
      · rw [if_neg h1, List.find?_cons_of_neg _ (by simpa using h2),
          List.find?_cons_of_neg _ (by simpa using h2)]
        exact ih

theorem closedQtySum_append (cs : List ClosedTrade) (c : ClosedTrade) (tid : Nat) :
    closedQtySum (cs ++ [c]) tid =
      closedQtySum cs tid + (if c.tradeAchatId = tid then c.quantity else 0) := by
  unfold closedQtySum
  by_cases h : c.tradeAchatId = tid <;> simp [List.filter_append, h]

theorem closedQtySum_eq_zero_of_fresh (cs : List ClosedTrade) (n : Nat)
    (h : ∀ c ∈ cs, c.tradeAchatId < n) : closedQtySum cs n = 0 := by
  unfold closedQtySum
  have hnil : cs.filter (fun c => c.tradeAchatId = n) = [] := by
    rw [List.filter_eq_nil_iff]
    intro c hc
    simpa using Nat.ne_of_lt (h c hc)
  rw [hnil]
  rfl

theorem fifoStep_inv (userId : Int) (saleTrade lot : Trade) (st : DBState)
    (toClose : ℚ) (hInv : Inv st) (hmem : lot ∈ st.trades)
    (htype : lot.tradeType = "achat") (h0 : 0 < toClose)
    (hle : toClose ≤ lot.quantiteRestante) :
    Inv { trades := updateLot st.trades lot.id (lot.quantiteRestante - toClose)
          closedTrades := st.closedTrades ++ [mkClosedTrade userId lot saleTrade toClose]
          nextId := st.nextId } := by
  obtain ⟨hPair, hLt, hFrag, hBnd, hVen, hCon⟩ := hInv
  have hproj : ∀ t : Trade,
      (if t.id = lot.id then { t with quantiteRestante := lot.quantiteRestante - toClose }
       else t).id = t.id := by
    intro t
    by_cases h : t.id = lot.id <;> simp [h]
  refine ⟨updateLot_pairwise _ _ _ hPair, ?_, ?_, ?_, ?_, ?_⟩
  · intro t' ht'
    rcases List.mem_map.mp ht' with ⟨t, ht, rfl⟩
    rw [hproj t]
    exact hLt t ht
  · intro c hc
    rcases List.mem_append.mp hc with h | h
    · exact hFrag c h
    · rw [List.mem_singleton] at h
      subst h
      simpa [mkClosedTrade] using hLt lot hmem
  · intro t' ht'
    rcases List.mem_map.mp ht' with ⟨t, ht, rfl⟩
    by_cases hid : t.id = lot.id
    · have := eq_of_mem_of_id_eq st.trades hPair t lot ht hmem hid
      subst this
      rw [if_pos hid]
      have h2 := hBnd t ht
      constructor
      · simpa using hle
      · have : t.quantiteRestante - toClose ≤ t.quantiteRestante := by linarith
        simpa using le_trans this h2.2
    · rw [if_neg hid]
      exact hBnd t ht
  · intro t' ht'
    rcases List.mem_map.mp ht' with ⟨t, ht, rfl⟩
    by_cases hid : t.id = lot.id
    · have := eq_of_mem_of_id_eq st.trades hPair t lot ht hmem hid
      subst this
      rw [if_pos hid]
      intro habs
      simp only at habs
      rw [htype] at habs
      exact absurd habs (by decide)
    · rw [if_neg hid]
      exact hVen t ht
  · intro t' ht'
    rcases List.mem_map.mp ht' with ⟨t, ht, rfl⟩
    by_cases hid : t.id = lot.id
    · have := eq_of_mem_of_id_eq st.trades hPair t lot ht hmem hid
      subst this
      rw [if_pos hid]
      intro _
      have hsum := hCon t ht htype
      have hfragid : (mkClosedTrade userId t saleTrade toClose).tradeAchatId = t.id := rfl
      have hfragq : (mkClosedTrade userId t saleTrade toClose).quantity = toClose := rfl
      simp only [closedQtySum_append, hfragid, hfragq]
      rw [if_pos trivial]
      linarith
    · rw [if_neg hid]
      intro htype'
      have hsum := hCon t ht htype'
      have hfragid : (mkClosedTrade userId lot saleTrade toClose).tradeAchatId = lot.id := rfl
      rw [closedQtySum_append, hfragid, if_neg (fun h => hid h.symm), add_zero]
      exact hsum

theorem fifoLoop_zero (userId : Int) (saleTrade : Trade) (lots : List Trade)
    (st : DBState) (r : ℚ) (hr : r ≤ 0) :
    fifoLoop userId saleTrade lots st r = (st, r) := by
  cases lots with
  | nil => rfl
  | cons a l => simp [fifoLoop, hr]

theorem fifoLoop_inv (userId : Int) (saleTrade : Trade) :
    ∀ (lots : List Trade) (st : DBState) (remaining : ℚ),
      Inv st →
      (∀ l ∈ lots, l ∈ st.trades ∧ l.tradeType = "achat" ∧ 0 < l.quantiteRestante) →
      (lots.map (fun l => l.id)).Nodup →
      Inv (fifoLoop userId saleTrade lots st remaining).1 := by
  intro lots
  induction lots with
  | nil =>
    intro st r hInv _ _
    exact hInv
  | cons buy rest ih =>
    intro st r hInv hel hnd
    simp only [fifoLoop]
    by_cases hr : r ≤ 0
    · rw [if_pos hr]
      exact hInv
    · rw [if_neg hr]
      push_neg at hr
      obtain ⟨hmem, htype, hpos⟩ := hel buy (List.mem_cons_self _ _)
      have h0 : 0 < min r buy.quantiteRestante := lt_min hr hpos
      have hle : min r buy.quantiteRestante ≤ buy.quantiteRestante := min_le_right _ _
      have hInv2 := fifoStep_inv userId saleTrade buy st _ hInv hmem htype h0 hle
      have hnd2 : (∀ x ∈ rest, ¬x.id = buy.id) ∧
          (rest.map (fun l => l.id)).Nodup := by
        simpa using hnd
      apply ih _ _ hInv2
      · intro l hl
        obtain ⟨hlmem, hltype, hlpos⟩ := hel l (List.mem_cons_of_mem _ hl)
        exact ⟨mem_updateLot_of_ne _ _ _ l hlmem (hnd2.1 l hl), hltype, hlpos⟩
      · exact hnd2.2

theorem fifoLoop_untouched (userId : Int) (saleTrade : Trade) :
    ∀ (lots : List Trade) (st : DBState) (remaining : ℚ) (tid : Nat),
      tid ∉ lots.map (fun l => l.id) →
      remOf (fifoLoop userId saleTrade lots st remaining).1.trades tid =
        remOf st.trades tid := by
  intro lots
  induction lots with
  | nil =>
    intro st r tid _
    rfl
  | cons buy rest ih =>
    intro st r tid htid
    simp only [List.map_cons, List.mem_cons] at htid
    push_neg at htid
    simp only [fifoLoop]
    by_cases hr : r ≤ 0
    · rw [if_pos hr]
    · rw [if_neg hr]
      rw [ih _ _ _ (by simpa using htid.2)]
      exact remOf_updateLot_other _ _ _ _ htid.1

theorem fifoLoop_order (userId : Int) (saleTrade : Trade) :
    ∀ (lots : List Trade) (st : DBState) (remaining : ℚ),
      Inv st →
      (∀ l ∈ lots, l ∈ st.trades ∧ l.tradeType = "achat" ∧ 0 < l.quantiteRestante) →
      (lots.map (fun l => l.id)).Nodup →
      lots.Pairwise (fun a b =>
        remOf (fifoLoop userId saleTrade lots st remaining).1.trades b.id <
          b.quantiteRestante →
        remOf (fifoLoop userId saleTrade lots st remaining).1.trades a.id = 0) := by
  intro lots
  induction lots with
  | nil =>
    intro st r _ _ _
    exact List.Pairwise.nil
  | cons buy rest ih =>
    intro st r hInv hel hnd
    simp only [fifoLoop]
    by_cases hr : r ≤ 0
    · simp only [if_pos hr]
      apply List.pairwise_of_forall_mem_list
      intro a ha b hb hlt
      exfalso
      have hb' := (hel b hb).1
      rw [remOf_of_mem st.trades b hInv.1 hb'] at hlt
      exact lt_irrefl _ hlt
    · simp only [if_neg hr]
      push_neg at hr
      obtain ⟨hmem, htype, hpos⟩ := hel buy (List.mem_cons_self _ _)
      have h0 : 0 < min r buy.quantiteRestante := lt_min hr hpos
      have hle : min r buy.quantiteRestante ≤ buy.quantiteRestante := min_le_right _ _
      have hInv2 := fifoStep_inv userId saleTrade buy st _ hInv hmem htype h0 hle
      have hnd2 : (∀ x ∈ rest, ¬x.id = buy.id) ∧
          (rest.map (fun l => l.id)).Nodup := by
        simpa using hnd
      have hel2 : ∀ l ∈ rest,
          l ∈ (updateLot st.trades buy.id
            (buy.quantiteRestante - min r buy.quantiteRestante)) ∧
          l.tradeType = "achat" ∧ 0 < l.quantiteRestante := by
        intro l hl
        obtain ⟨hlmem, hltype, hlpos⟩ := hel l (List.mem_cons_of_mem _ hl)
        exact ⟨mem_updateLot_of_ne _ _ _ l hlmem (hnd2.1 l hl), hltype, hlpos⟩
      rw [List.pairwise_cons]
      constructor
      · intro b hb
        rcases le_or_lt r buy.quantiteRestante with hcase | hcase
        · rw [min_eq_left hcase, sub_self,
            fifoLoop_zero userId saleTrade rest _ 0 (le_refl 0)]
          intro hlt
          exfalso
          have hb' := (hel b (List.mem_cons_of_mem _ hb)).1
          have : remOf (updateLot st.trades buy.id (buy.quantiteRestante - r)) b.id =
              remOf st.trades b.id :=
            remOf_updateLot_other _ _ _ _ (hnd2.1 b hb)
          rw [this, remOf_of_mem st.trades b hInv.1 hb'] at hlt
          exact lt_irrefl _ hlt
        · intro _
          rw [min_eq_right (le_of_lt hcase)]
          rw [fifoLoop_untouched userId saleTrade rest _ _ buy.id
            (by
              intro hbuy
              rcases List.mem_map.mp hbuy with ⟨x, hx, hxid⟩
              exact hnd2.1 x hx hxid)]
          show remOf (updateLot st.trades buy.id
            (buy.quantiteRestante - buy.quantiteRestante)) buy.id = 0
          rw [remOf_updateLot_self st.trades buy _ hInv.1 hmem, sub_self]
      · exact ih _ _ hInv2 hel2 hnd2.2

/-- The store part of `processSaleFifo` is the store the loop left,
whether or not the short-sell error fired. -/
theorem processSaleFifo_fst (st : DBState) (userId : Int) (saleTrade : Trade) :
    (processSaleFifo st userId saleTrade).1 =
      (fifoLoop userId saleTrade (eligibleBuys st.trades userId saleTrade.symbol)
        st saleTrade.quantite).1 := by
  simp only [processSaleFifo]
  split <;> rfl

theorem eligibleBuys_spec (trades : List Trade) (userId : Int) (symbol : String)
    (hp : trades.Pairwise (fun a b => a.id < b.id)) :
    (∀ l ∈ eligibleBuys trades userId symbol,
      l ∈ trades ∧ l.userId = userId ∧ l.symbol = symbol ∧
      l.tradeType = "achat" ∧ 0 < l.quantiteRestante) ∧
    ((eligibleBuys trades userId symbol).map (fun l => l.id)).Nodup ∧
    (eligibleBuys trades userId symbol).Pairwise dateIdLex := by
  have hpf : (trades.filter (fun t =>
      t.userId = userId ∧ t.symbol = symbol ∧ t.tradeType = "achat" ∧
      0 < t.quantiteRestante)).Pairwise (fun a b => a.id < b.id) :=
    List.Pairwise.sublist (List.filter_sublist trades) hp
  refine ⟨?_, ?_, ?_⟩
  · intro l hl
    rw [eligibleBuys, mem_sortByDate, List.mem_filter] at hl
    have h2 : l.userId = userId ∧ l.symbol = symbol ∧ l.tradeType = "achat" ∧
        0 < l.quantiteRestante := by
      simpa using hl.2
    exact ⟨hl.1, h2.1, h2.2.1, h2.2.2.1, h2.2.2.2⟩
  · have hfil : ((trades.filter (fun t =>
        t.userId = userId ∧ t.symbol = symbol ∧ t.tradeType = "achat" ∧
        0 < t.quantiteRestante)).map (fun l => l.id)).Nodup := by
      have hne : (trades.filter (fun t =>
          t.userId = userId ∧ t.symbol = symbol ∧ t.tradeType = "achat" ∧
          0 < t.quantiteRestante)).Pairwise (fun a b => a.id ≠ b.id) := by
        exact List.Pairwise.imp (fun h => Nat.ne_of_lt h) hpf
      exact List.pairwise_map.mpr hne
    have hperm := (sortByDate_perm (trades.filter (fun t =>
      t.userId = userId ∧ t.symbol = symbol ∧ t.tradeType = "achat" ∧
      0 < t.quantiteRestante))).map (fun l => l.id)
    exact (hperm.nodup_iff).mpr hfil
  · exact sortByDate_pairwise _ hpf

theorem processSaleFifo_inv (st : DBState) (userId : Int) (saleTrade : Trade)
    (hInv : Inv st) : Inv (processSaleFifo st userId saleTrade).1 := by
  rw [processSaleFifo_fst]
  obtain ⟨hspec1, hspec2, _⟩ :=
    eligibleBuys_spec st.trades userId saleTrade.symbol hInv.1
  exact fifoLoop_inv userId saleTrade _ st saleTrade.quantite hInv
    (fun l hl => ⟨(hspec1 l hl).1, (hspec1 l hl).2.2.2.1, (hspec1 l hl).2.2.2.2⟩)
    hspec2

theorem insert_inv (st : DBState) (newTrade : Trade) (hInv : Inv st)
    (hid : newTrade.id = st.nextId)
    (hbnd : 0 ≤ newTrade.quantiteRestante ∧
      newTrade.quantiteRestante ≤ newTrade.quantite)
    (hven : newTrade.tradeType = "vente" → newTrade.quantiteRestante = 0)
    (hcon : newTrade.tradeType = "achat" →
      newTrade.quantiteRestante = newTrade.quantite) :
    Inv { trades := st.trades ++ [newTrade]
          closedTrades := st.closedTrades
          nextId := st.nextId + 1 } := by
  obtain ⟨hPair, hLt, hFrag, hBnd, hVen, hCon⟩ := hInv
  refine ⟨?_, ?_, ?_, ?_, ?_, ?_⟩
  · rw [List.pairwise_append]
    refine ⟨hPair, List.pairwise_singleton _ _, ?_⟩
    intro a ha b hb
    rw [List.mem_singleton] at hb
    subst hb
    rw [hid]
    exact hLt a ha
  · intro t ht
    rcases List.mem_append.mp ht with h | h
    · exact Nat.lt_succ_of_lt (hLt t h)
    · rw [List.mem_singleton] at h
      subst h
      rw [hid]
      exact Nat.lt_succ_self _
  · intro c hc
    exact Nat.lt_succ_of_lt (hFrag c hc)
  · intro t ht
    rcases List.mem_append.mp ht with h | h
    · exact hBnd t h
    · rw [List.mem_singleton] at h
      subst h
      exact hbnd
  · intro t ht
    rcases List.mem_append.mp ht with h | h
    · exact hVen t h
    · rw [List.mem_singleton] at h
      subst h
      exact hven
  · intro t ht htype
    rcases List.mem_append.mp ht with h | h
    · exact hCon t h htype
    · rw [List.mem_singleton] at h
      subst h
      rw [hid, closedQtySum_eq_zero_of_fresh st.closedTrades st.nextId hFrag,
        zero_add]
      exact (hcon htype).symm ▸ rfl

theorem inv_initState : Inv initState := by
  refine ⟨List.Pairwise.nil, ?_, ?_, ?_, ?_, ?_⟩ <;> intro t ht <;> cases ht

theorem createTrade_inv (env : Env) (st : DBState) (userId : Int)
    (req : CreateTradeRequest) (hInv : Inv st) (hq : 0 < req.quantite) :
    Inv (createTrade env st userId req).1 := by
  unfold createTrade
  rcases hbg : buyGate env st userId req (req.quantite * req.prixUnitaire) with _ | e
  · simp only [hbg]
    by_cases hv : req.tradeType = "vente"
    · rw [if_pos hv]
      apply processSaleFifo_inv
      apply insert_inv st _ hInv rfl
      · constructor
        · by_cases ha : req.tradeType = "achat" <;> simp [ha, le_of_lt hq]
        · by_cases ha : req.tradeType = "achat" <;> simp [ha, le_of_lt hq]
      · intro _
        simp [hv]
      · intro ha
        have ha' : req.tradeType = "achat" := ha
        rw [hv] at ha'
        exact absurd ha' (by decide)
    · rw [if_neg hv]
      apply insert_inv st _ hInv rfl
      · constructor
        · by_cases ha : req.tradeType = "achat" <;> simp [ha, le_of_lt hq]
        · by_cases ha : req.tradeType = "achat" <;> simp [ha, le_of_lt hq]
      · intro hv'
        exact absurd hv' hv
      · intro ha
        have ha' : req.tradeType = "achat" := ha
        simp [ha']
  · simp only [hbg]
    exact hInv

theorem runTrades_inv (env : Env) :
    ∀ (reqs : List (Int × CreateTradeRequest)) (st : DBState),
      Inv st → (∀ p ∈ reqs, 0 < p.2.quantite) → Inv (runTrades env st reqs) := by
  intro reqs
  induction reqs with
  | nil =>
    intro st h _
    exact h
  | cons p ps ih =>
    intro st h hq
    exact ih _ (createTrade_inv env st p.1 p.2 h (hq p (List.mem_cons_self _ _)))
      (fun p' hp' => hq p' (List.mem_cons_of_mem _ hp'))

/-- C1: evaluation of the code at the failing input.  With one BUY lot of 5
AAPL and a SELL of 10, `create_trade` does return the short-sell error — but
only after committing the settlement work: the SELL row is inserted, the
BUY lot is drained to `quantite_restante = 0`, and a closed-trade fragment
of 5 units is recorded.  The rejected sell is not atomic: stored state is
mutated (the spec mandates all-or-nothing settlement and flags this very
behavior as a defect). -/
theorem c1_short_sell_partial_mutation :
    let env : Env :=
      { stocks := [{ compagnyName := "Apple", symbolAlphavantage := some "AAPL",
                     currency := some "CAD" }]
        wallet := [{ userId := 1, date := 0, action := "ajout", symbol := none,
                     amount := 1000, currency := "CAD" }] }
    let st1 := (createTrade env initState 1
      { symbol := "AAPL", tradeType := "achat", quantite := 5,
        prixUnitaire := 10, date := 1 }).1
    let out := createTrade env st1 1
      { symbol := "AAPL", tradeType := "vente", quantite := 10,
        prixUnitaire := 12, date := 2 }
    getAvailableQuantity st1.trades 1 "AAPL" = 5 ∧
    out.2 = some (.shortSell 10 "AAPL" 5) ∧
    (out.1.trades.map (fun t => t.quantiteRestante)) = [0, 0] ∧
    out.1.closedTrades.length = 1 := by
  refine ⟨?_, ?_, ?_, ?_⟩
  · with_unfolding_all decide
  · with_unfolding_all decide
  · with_unfolding_all decide
  · with_unfolding_all decide

/-- C2: over any sequence of `create_trade` calls with positive quantities
starting from an empty store, every stored lot keeps
`0 ≤ quantite_restante ≤ quantite`, every SELL lot keeps
`quantite_restante = 0`, and for every BUY lot the closed-trade fragment
quantities matched against it plus its final `quantite_restante` equal its
original `quantite` (conservation). -/
theorem c2_conservation (env : Env) (reqs : List (Int × CreateTradeRequest))
    (hq : ∀ p ∈ reqs, 0 < p.2.quantite) :
    (∀ t ∈ (runTrades env initState reqs).trades,
      0 ≤ t.quantiteRestante ∧ t.quantiteRestante ≤ t.quantite) ∧
    (∀ t ∈ (runTrades env initState reqs).trades,
      t.tradeType = "vente" → t.quantiteRestante = 0) ∧
    (∀ t ∈ (runTrades env initState reqs).trades, t.tradeType = "achat" →
      closedQtySum (runTrades env initState reqs).closedTrades t.id +
        t.quantiteRestante = t.quantite) := by
  have h := runTrades_inv env reqs initState inv_initState hq
  exact ⟨h.2.2.2.1, h.2.2.2.2.1, h.2.2.2.2.2⟩

/-- Witness for C2 on the spec's scenario (BUY 10@50 day 1, BUY 5@55 day 3,
SELL 12 day 5): the day-1 lot ends drained to 0 and its matched fragments
sum to its original 10. -/
theorem c2_conservation_witness :
    closedQtySum (runTrades
      { stocks := [{ compagnyName := "Apple", symbolAlphavantage := some "AAPL",
                     currency := some "CAD" }]
        wallet := [{ userId := 1, date := 0, action := "ajout", symbol := none,
                     amount := 1000, currency := "CAD" }] }
      initState
      [(1, { symbol := "AAPL", tradeType := "achat", quantite := 10,
             prixUnitaire := 50, date := 1 }),
       (1, { symbol := "AAPL", tradeType := "achat", quantite := 5,
             prixUnitaire := 55, date := 3 }),
       (1, { symbol := "AAPL", tradeType := "vente", quantite := 12,
             prixUnitaire := 60, date := 5 })]).closedTrades 0 + 0 = 10 := by
  have h := (c2_conservation
    { stocks := [{ compagnyName := "Apple", symbolAlphavantage := some "AAPL",
                   currency := some "CAD" }]
      wallet := [{ userId := 1, date := 0, action := "ajout", symbol := none,
                   amount := 1000, currency := "CAD" }] }
    [(1, { symbol := "AAPL", tradeType := "achat", quantite := 10,
           prixUnitaire := 50, date := 1 }),
     (1, { symbol := "AAPL", tradeType := "achat", quantite := 5,
           prixUnitaire := 55, date := 3 }),
     (1, { symbol := "AAPL", tradeType := "vente", quantite := 12,
           prixUnitaire := 60, date := 5 })]
    (by with_unfolding_all decide)).2.2
    { id := 0, userId := 1, date := 1, symbol := "AAPL", tradeType := "achat",
      quantite := 10, prixUnitaire := 50, prixTotal := 500, quantiteRestante := 0 }
    (by with_unfolding_all decide) rfl
  exact h

theorem pairwise_cases₂ {α : Type} (R S : α → α → Prop) (l : List α)
    (hR : l.Pairwise R) (hS : l.Pairwise S) (a b : α)
    (ha : a ∈ l) (hb : b ∈ l) (hne : a ≠ b) :
    (R a b ∧ S a b) ∨ (R b a ∧ S b a) := by
  induction l with
  | nil => cases ha
  | cons x xs ih =>
    rcases List.pairwise_cons.mp hR with ⟨hRx, hRxs⟩
    rcases List.pairwise_cons.mp hS with ⟨hSx, hSxs⟩
    rcases List.mem_cons.mp ha with rfl | ha' <;> rcases List.mem_cons.mp hb with h | hb'
    · exact absurd h.symm hne
    · exact Or.inl ⟨hRx b hb', hSx b hb'⟩
    · subst h
      exact Or.inr ⟨hRx a ha', hSx a ha'⟩
    · exact ih hRxs hSxs ha' hb'

/-- Date-ascending consumption holds for any date-sorted snapshot: the
SQL contract behind the FIFO query fixes only the date order, yet for
every list the store could hand the loop — eligible lots in any order
whose dates are nondecreasing — a lot is never decremented while a
strictly older lot still has `quantite_restante > 0`.  (The relative
order of equal-date lots is the part the query does not determine; see
the theorem for claim C3.) -/
theorem fifoLoop_strict_date_order (userId : Int) (saleTrade : Trade)
    (lots : List Trade) (st : DBState) (remaining : ℚ) (hInv : Inv st)
    (hel : ∀ l ∈ lots, l ∈ st.trades ∧ l.tradeType = "achat" ∧ 0 < l.quantiteRestante)
    (hnd : (lots.map (fun l => l.id)).Nodup)
    (hsorted : lots.Pairwise (fun a b => a.date ≤ b.date))
    (a b : Trade) (ha : a ∈ lots) (hb : b ∈ lots) (hdate : a.date < b.date)
    (hdec : remOf (fifoLoop userId saleTrade lots st remaining).1.trades b.id <
      b.quantiteRestante) :
    remOf (fifoLoop userId saleTrade lots st remaining).1.trades a.id = 0 := by
  have hcons := fifoLoop_order userId saleTrade lots st remaining hInv hel hnd
  have hne : a ≠ b := by
    intro he
    rw [he] at hdate
    exact lt_irrefl _ hdate
  rcases pairwise_cases₂ _ _ lots hsorted hcons a b ha hb hne with ⟨_, h⟩ | ⟨hd, _⟩
  · exact h hdec
  · exact absurd hdate (not_lt.mpr hd)

/-- C3: evaluation of the code at the failing input.  The FIFO snapshot
query orders by `date` only (`order_by_asc(trade::Column::Date)`), so for
two BUY lots sharing a `trade_date` the store may return them in either
order — both orders below are date-ascending permutations of the eligible
lots, and the model's own snapshot (`eligibleBuys`) is one of them.
Settling a SELL of 3 against them gives different stored states: the
insertion-order snapshot drains the older lot (id 0) to 2, but the
reversed snapshot — equally admissible under the query — decrements the
newer lot (id 1) to 2 while the equal-dated older lot keeps all 5 units.
The insertion/id tie-break the claim (and the spec's ordering guarantee)
requires is therefore not enforced by the program. -/
theorem c3_tie_break_not_guaranteed :
    let lot0 : Trade :=
      { id := 0, userId := 1, date := 1, symbol := "AAPL", tradeType := "achat",
        quantite := 5, prixUnitaire := 50, prixTotal := 250, quantiteRestante := 5 }
    let lot1 : Trade :=
      { id := 1, userId := 1, date := 1, symbol := "AAPL", tradeType := "achat",
        quantite := 5, prixUnitaire := 55, prixTotal := 275, quantiteRestante := 5 }
    let st : DBState := { trades := [lot0, lot1], closedTrades := [], nextId := 2 }
    let saleTrade : Trade :=
      { id := 2, userId := 1, date := 2, symbol := "AAPL", tradeType := "vente",
        quantite := 3, prixUnitaire := 60, prixTotal := 180, quantiteRestante := 0 }
    eligibleBuys st.trades 1 "AAPL" = [lot0, lot1] ∧
    List.Perm [lot1, lot0] [lot0, lot1] ∧
    [lot0, lot1].Pairwise (fun a b => a.date ≤ b.date) ∧
    [lot1, lot0].Pairwise (fun a b => a.date ≤ b.date) ∧
    remOf (fifoLoop 1 saleTrade [lot0, lot1] st 3).1.trades 0 = 2 ∧
    remOf (fifoLoop 1 saleTrade [lot0, lot1] st 3).1.trades 1 = 5 ∧
    remOf (fifoLoop 1 saleTrade [lot1, lot0] st 3).1.trades 0 = 5 ∧
    remOf (fifoLoop 1 saleTrade [lot1, lot0] st 3).1.trades 1 = 2 := by
  refine ⟨?_, ?_, ?_, ?_, ?_, ?_, ?_, ?_⟩
  · with_unfolding_all decide
  · exact List.Perm.swap _ _ _
  · with_unfolding_all decide
  · with_unfolding_all decide
  · with_unfolding_all decide
  · with_unfolding_all decide
  · with_unfolding_all decide
  · with_unfolding_all decide

end TradingApp
